import Mathlib

/-!
# Verification of the crawl-and-download engine

A shallow embedding, in Lean 4, of the core of the `Data_Kitchen` repository:
the download scheduler (`src/utils/downloader.py`, class `DownloadManager`)
and the listing parser / recursive resolver (`src/utils/network.py`, class
`NetworkManager`).  Pure functions of the Python source are translated into
Lean functions; the stateful, threaded parts are translated into explicit
state-transition systems whose atomic steps correspond to the source's
lock-protected critical sections.  Byte strings are `List Nat`, percentages
are `Rat` (Python floats on these small integer ratios are exact enough that
only their ordering and equality are claimed), and fallible Python code
(statements that can raise) returns `Except String` or `Option`.
-/

namespace DataKitchen

/-! ### Python string primitives

Lean's built-in `String` functions are implemented over byte positions and
do not reduce in the kernel, so the Python string operations the repository
uses are given here as structurally recursive functions over the character
list `String.data`, which the kernel evaluates.  Python strings are
sequences of code points, so this is also the faithful data model. -/

/-- Split a character list at every occurrence of the separator (Python
`str.split(sep)` semantics: `n` separators yield `n + 1` pieces, empty
pieces included). -/
def splitChar (sep : Char) : List Char → List (List Char)
  | [] => [[]]
  | c :: cs =>
    let rest := splitChar sep cs
    if c = sep then [] :: rest
    else
      match rest with
      | [] => [[c]]
      | piece :: more => (c :: piece) :: more

/-- Whether the first list is a prefix of the second, by character. -/
def listStarts : List Char → List Char → Bool
  | [], _ => true
  | _ :: _, [] => false
  | a :: as, b :: bs => a = b && listStarts as bs

/-- Python `url.split(sep)` for a one-character separator, as strings. -/
def pysplit (sep : Char) (s : String) : List String :=
  (splitChar sep s.data).map String.mk

/-- Python `s.endswith(suffix)`. -/
def pyEndsWith (s suffix : String) : Bool :=
  listStarts suffix.data.reverse s.data.reverse

/-- Python `s.startswith(pre)`. -/
def pyStartsWith (s pre : String) : Bool :=
  listStarts pre.data s.data

/-- Python `s[:-n]` for `0 < n ≤ len(s)`: all but the last `n` characters. -/
def pyDropRight (s : String) (n : Nat) : String :=
  String.mk (s.data.take (s.data.length - n))

/-- Python `str.strip()`: remove leading and trailing whitespace. -/
def pystrip (s : String) : String :=
  String.mk (((s.data.dropWhile Char.isWhitespace).reverse.dropWhile
    Char.isWhitespace).reverse)

/-- Python `sep.join(parts)` for a one-character separator. -/
def joinChar (sep : Char) (parts : List String) : String :=
  String.mk (((parts.map String.data).intersperse [sep]).flatten)

/-- Python `list.index(x)` for an element known to be present (the index of
the first occurrence). -/
def listIndex (x : String) : List String → Nat
  | [] => 0
  | y :: ys => if y = x then 0 else listIndex x ys + 1

/-- Python `os.path.basename` on POSIX: the part of the path after the final
slash (`''` when the path ends in a slash). -/
def pybasename (p : String) : String :=
  (pysplit '/' p).getLastD ""

/-- Python `str.lower`, on the per-character lowering that the repository's
ASCII extension comparisons exercise. -/
def pylower (s : String) : String :=
  String.mk (s.data.map Char.toLower)

/-- Model of `DownloadManager._is_image` (downloader.py lines 191-194):
`url.lower().endswith(('.jpg', '.jpeg', '.png', '.gif', '.bmp', '.webp'))`. -/
def _is_image (url : String) : Bool :=
  [".jpg", ".jpeg", ".png", ".gif", ".bmp", ".webp"].any
    (fun ext => pyEndsWith (pylower url) ext)

/-- The destination rewrite of `DownloadManager._download_worker`
(downloader.py lines 83-84):
`if dest_path.lower().endswith('.gls'): dest_path = dest_path[:-4] + '.csv'`. -/
def glsRewrite (dest_path : String) : String :=
  if pyEndsWith (pylower dest_path) ".gls" then pyDropRight dest_path 4 ++ ".csv"
  else dest_path

/-- Model of `DownloadManager._get_relative_path` (downloader.py lines 155-169).
Python's `list.index` raises `ValueError` only when the element is absent,
which the membership guard excludes, so the `except ValueError` branch of the
source is dead and the translation is total. -/
def _get_relative_path (url base_dir : String) : String :=
  let base_name := pybasename base_dir
  let url_parts := pysplit '/' url
  if base_name ∉ url_parts then url_parts.getLastD ""
  else
    let start_idx := listIndex base_name url_parts + 1
    joinChar '/' (url_parts.drop start_idx)

/-- Overall-progress percentage `(completed / total) * 100` as an exact
rational (downloader.py lines 75 and 105).  Python would raise
`ZeroDivisionError` at `total = 0`; that state is unreachable for a running
worker because a worker only exists for a task of a batch with at least one
file, and `Rat` division by zero yields `0` here. -/
def ratPct (completed total : Nat) : Rat :=
  ((completed : Rat) / (total : Rat)) * 100

/-! ## The download worker

`DownloadManager._download_worker` (downloader.py lines 69-116), as a pure
function from one task and the outcome of its external effects to the events
it emits, the file bytes it writes, and its effect on the shared batch
counters.  The Qt signals of the source become constructors of `Event`. -/

/-- One emitted Qt signal of `DownloadManager` (downloader.py lines 9-14). -/
inductive Event where
  /-- Signal `progress_updated.emit(file_name, pct)`. -/
  | progress (name : String) (pct : Rat)
  /-- Signal `overall_progress_updated.emit(pct)`. -/
  | overall (pct : Rat)
  /-- Signal `download_completed.emit(file_name)`. -/
  | fileDone (name : String)
  /-- Signal `download_error.emit(file_name, msg)`. -/
  | fileError (name : String) (msg : String)
  /-- Signal `all_downloads_completed.emit()`. -/
  | allDone
  deriving DecidableEq, Repr

/-- An HTTP response as the worker sees it: the declared `content-length`
header (`0` when absent, per `int(response.headers.get('content-length', 0))`,
downloader.py line 87) and the body as the chunk sequence that
`response.iter_content(chunk_size=8192)` yields; `requests` guarantees the
chunks concatenate to the body, so `response.content` is their join. -/
structure Response where
  content_length : Nat
  chunks : List (List Nat)
  deriving DecidableEq, Repr

/-- Model of `response.content`: the full body. -/
def Response.content (r : Response) : List Nat :=
  r.chunks.flatten

/-- The outcome of the external effects of one worker run: where, if
anywhere, the `try` body of `_download_worker` raises.  `mkdirErr` is an
`os.makedirs` failure (line 80, before the `.gls` rewrite), `netErr` is a
`download_file` failure (connection error or `raise_for_status` on a non-2xx
status, line 86), `writeErr resp k msg` is a filesystem failure after the
first `k` chunks of the body were written (lines 89-99), and `ok` is a
complete, successful transfer. -/
inductive Outcome where
  | mkdirErr (msg : String)
  | netErr (msg : String)
  | writeErr (resp : Response) (k : Nat) (msg : String)
  | ok (resp : Response)
  deriving DecidableEq, Repr

/-- The per-chunk progress events of the streamed-write loop (downloader.py
lines 93-99): empty chunks are skipped (`if chunk:`), `downloaded`
accumulates the chunk lengths, and each non-empty chunk emits
`progress_updated` with `(downloaded / total_size) * 100`. -/
def chunkEvents (name : String) (total_size : Nat) : Nat → List (List Nat) → List Event
  | _, [] => []
  | downloaded, c :: rest =>
    if c.isEmpty then chunkEvents name total_size downloaded rest
    else
      Event.progress name (ratPct (downloaded + c.length) total_size) ::
        chunkEvents name total_size (downloaded + c.length) rest

/-- The bytes the streamed-write loop puts on disk: the non-empty chunks,
concatenated in order (`if chunk: f.write(chunk)`). -/
def writtenBytes (chunks : List (List Nat)) : List Nat :=
  chunks.foldl (fun acc c => if c.isEmpty then acc else acc ++ c) []

/-- The observable result of one `_download_worker` run: the events emitted
in order, the `(path, bytes)` file writes, the amount added to the shared
`_completed_files` counter, and whether the `finally` block removed the
task's URL from `_active_downloads` (it always does). -/
structure WorkerResult where
  events : List Event
  writes : List (String × List Nat)
  completedDelta : Nat
  removedFromActive : Bool
  deriving DecidableEq, Repr

/-- Model of `DownloadManager._download_worker` (downloader.py lines 69-116) on one
task.  `total` is `self._total_files`; `pre` is the value of
`self._completed_files` when the worker acquires the lock (the lock makes the
increment-and-emit block atomic, so a single pre-value captures it).  Branch
by branch:
* lines 72-77: the image-skip path increments the counter and emits
  `overall_progress_updated` — and nothing else: no completion check;
* line 80: `os.makedirs` may raise, caught at line 112 with the original
  destination name;
* lines 83-84: the `.gls` → `.csv` rewrite, after which `dest_path` is the
  rewritten path for every later use, the error path included;
* lines 86-99: download and streamed write, with per-chunk progress when a
  content length is declared and a single whole-body write otherwise;
* lines 101-110: `download_completed`, then under the lock the increment,
  `overall_progress_updated`, and `all_downloads_completed` exactly when the
  new counter equals `total`;
* lines 112-116: any raise becomes one `download_error` with the current
  `dest_path`'s basename, and the `finally` removal always runs. -/
def _download_worker (skip_images : Bool) (url dest_path : String)
    (outcome : Outcome) (total pre : Nat) : WorkerResult :=
  if skip_images && _is_image url then
    { events := [Event.overall (ratPct (pre + 1) total)], writes := [],
      completedDelta := 1, removedFromActive := true }
  else
    match outcome with
    | Outcome.mkdirErr msg =>
      { events := [Event.fileError (pybasename dest_path) msg], writes := [],
        completedDelta := 0, removedFromActive := true }
    | Outcome.netErr msg =>
      let dest := glsRewrite dest_path
      { events := [Event.fileError (pybasename dest) msg], writes := [],
        completedDelta := 0, removedFromActive := true }
    | Outcome.writeErr resp k msg =>
      let dest := glsRewrite dest_path
      if resp.content_length = 0 then
        { events := [Event.fileError (pybasename dest) msg], writes := [],
          completedDelta := 0, removedFromActive := true }
      else
        { events := chunkEvents (pybasename dest) resp.content_length 0 (resp.chunks.take k) ++
            [Event.fileError (pybasename dest) msg],
          writes := [(dest, writtenBytes (resp.chunks.take k))],
          completedDelta := 0, removedFromActive := true }
    | Outcome.ok resp =>
      let dest := glsRewrite dest_path
      let body := if resp.content_length = 0 then resp.content
        else writtenBytes resp.chunks
      let progressEvents := if resp.content_length = 0 then []
        else chunkEvents (pybasename dest) resp.content_length 0 resp.chunks
      { events := progressEvents ++
          [Event.fileDone (pybasename dest), Event.overall (ratPct (pre + 1) total)] ++
          (if pre + 1 = total then [Event.allDone] else []),
        writes := [(dest, body)],
        completedDelta := 1, removedFromActive := true }

/-! ## The listing parser and the recursive resolver

`NetworkManager.list_directory` and `NetworkManager.get_all_downloadable_files`
(network.py lines 43-105 and 139-170).  An HTML listing page is embedded as
the parts of the soup the parser touches; a raised Python exception becomes
`Except.error`. -/

/-- An `<a>` tag inside a row's link cell: its optional `href` attribute —
the source indexes `link_tag['href']` unconditionally (network.py line 60),
and bs4's `Tag.__getitem__` raises `KeyError` when the attribute is absent —
and its optional `title`. -/
structure RowAnchor where
  href : Option String
  title : Option String
  deriving DecidableEq, Repr

/-- One `<tr>` of the listing table.  `linkCell` is the result of
`file.find('td', class_='link')` followed by `.find('a')`:
`none` — the row has no `td` of class `link` at all (so the chained
`.find('a')` on `None` raises `AttributeError`); `some none` — the cell is
there but holds no anchor; `some (some a)` — the first anchor of the cell.
`tdTexts` is the text of `file.find_all('td')` in order. -/
structure ListRow where
  linkCell : Option (Option RowAnchor)
  tdTexts : List String
  deriving DecidableEq, Repr

/-- A fetched listing page, as far as the parser inspects it:
`tableBody = none` — `soup.find('table', id='list')` is `None`;
`some none` — the table is there but `find('tbody')` is `None`;
`some (some rows)` — the `<tr>`s of the table body in document order. -/
structure ListingHTML where
  tableBody : Option (Option (List ListRow))
  deriving DecidableEq, Repr

/-- One parsed row of `NetworkManager.list_directory` (network.py lines
14-20).  `modified_date` carries the raw text of the date column: the
source's `strptime` with a two-format fallback to `datetime.now()` never
raises, and no claim depends on the parsed value, so the date is abstracted
as the column text (empty for the parent-directory row, whose source value
is `datetime.now()`). -/
structure FileItem where
  name : String
  is_directory : Bool
  size : String
  modified_date : String
  url : String
  deriving DecidableEq, Repr

/-- Model of `urllib.parse.urljoin`, restricted to the link shapes the repository's
listing protocol produces: an absolute `http(s)` link is returned unchanged,
and a relative child link is appended to the page URL (which the caller has
normalized to end in `/`).  The crawler never joins `../` links for
recursion (parent rows are filtered out), so dot-segment resolution is not
modelled. -/
def pyurljoin (base link : String) : String :=
  if pyStartsWith link "http" then link else base ++ link

/-- The body of the row loop of `NetworkManager.list_directory` (network.py
lines 55-103) on one row: `Except.error` models both the `AttributeError`
raised when the row has no link cell and the `KeyError` raised by
`link_tag['href']` when the anchor has no `href` attribute; `Except.ok none`
is the silent `continue` for a cell without an anchor, and
`Except.ok (some item)` a produced entry (the `../` row included). -/
def parseRow (u : String) (row : ListRow) : Except String (Option FileItem) :=
  match row.linkCell with
  | none => Except.error "AttributeError: NoneType has no attribute find"
  | some none => Except.ok none
  | some (some a) =>
    match a.href with
    | none => Except.error "KeyError: href"
    | some link =>
      if link = "../" then
        Except.ok (some { name := "..", is_directory := true, size := "",
                          modified_date := "", url := pyurljoin u link })
      else
        let name := a.title.getD link
        let is_dir := pyEndsWith link "/"
        let size := match row.tdTexts.get? 1 with
          | some t => pystrip t
          | none => ""
        let date_str := match row.tdTexts.get? 2 with
          | some t => pystrip t
          | none => ""
        Except.ok (some { name := name, is_directory := is_dir, size := size,
                          modified_date := date_str, url := pyurljoin u link })

/-- The parsing part of `NetworkManager.list_directory` (network.py lines
51-105), after the HTTP GET: locate the table and its body (an
`AttributeError` when either is absent), then fold the rows in document
order, appending each produced entry. -/
def parseListing (doc : ListingHTML) (u : String) : Except String (List FileItem) :=
  match doc.tableBody with
  | none => Except.error "AttributeError: NoneType has no attribute find"
  | some none => Except.error "AttributeError: NoneType has no attribute find_all"
  | some (some rows) =>
    rows.foldlM (fun acc row => do
      match ← parseRow u row with
      | none => pure acc
      | some item => pure (acc ++ [item])) []

/-- Model of `NetworkManager.list_directory` (network.py lines 43-105).  The remote
server is a function from URL to `Option ListingHTML`: `none` models a
network failure or the `raise_for_status` of a non-2xx response. -/
def list_directory (server : String → Option ListingHTML) (url : String) :
    Except String (List FileItem) :=
  let u := if pyEndsWith url "/" then url else url ++ "/"
  match server u with
  | none => Except.error "HTTPError"
  | some doc => parseListing doc u

/-- Model of `NetworkManager.get_all_downloadable_files` (network.py lines 139-170).
Python's recursion is unbounded; `fuel` bounds the call depth, so a run of
the source that terminates is a run of the model with enough fuel.  A
non-directory URL (no trailing `/`) yields its single descriptor.  For a
directory, the whole body sits in a `try` whose `except` logs and returns
the list accumulated so far; `list_directory` is the first statement, so a
fetch or parse failure returns `[]` for that subtree — and a recursive call
never raises into its parent, because it has its own `try`. -/
def get_all_downloadable_files (server : String → Option ListingHTML) :
    Nat → String → List FileItem
  | 0, _ => []
  | fuel + 1, url =>
    if ¬ pyEndsWith url "/" then
      [{ name := (pysplit '/' url).getLastD "", is_directory := false,
           size := "0", modified_date := "", url := url }]
    else
      match list_directory server url with
      | Except.error _ => []
      | Except.ok items =>
        items.foldl (fun acc item =>
          if item.name = ".." then acc
          else if item.is_directory then
            acc ++ get_all_downloadable_files server fuel item.url
          else acc ++ [item]) []

/-- The contribution of one child entry to its parent's resolver result:
nothing for a parent link, the recursive subtree for a directory, the entry
itself for a file. -/
def childContrib (server : String → Option ListingHTML) (fuel : Nat)
    (item : FileItem) : List FileItem :=
  if item.name = ".." then []
  else if item.is_directory then get_all_downloadable_files server fuel item.url
  else [item]

/-! ## The batch transition system

The shared state of one batch (`_total_files`, `_completed_files`, the
emitted signals) and the order in which workers finish.  A step runs one
still-pending task's worker to completion; the worker's lock-protected
increment-and-emit block is atomic in the source, so each finishing worker
reads a single consistent counter value (`s.completed` at its step).  The
per-file events of different workers may in reality interleave differently,
but every claim about cross-worker ordering concerns only the lock-protected
`overall` / `allDone` emissions, which the lock serializes exactly as the
step order does. -/

/-- One queued task: its URL, destination, and the outcome its transfer
would have. -/
structure TaskSpec where
  url : String
  dest : String
  outcome : Outcome
  deriving DecidableEq, Repr

/-- The batch-scoped shared state of `DownloadManager`: the flag and the
counters set by `start_batch_download`, the tasks not yet finished, and the
log of emitted signals. -/
structure BatchSys where
  skip_images : Bool
  total : Nat
  completed : Nat
  pending : List TaskSpec
  events : List Event
  deriving DecidableEq, Repr

/-- Model of `DownloadManager.start_batch_download` (downloader.py lines 143-153):
under the lock, `_total_files := len(files)` and `_completed_files := 0`;
every file is queued.  This is the only place outside `__init__` that writes
`_completed_files` other than the workers' increments. -/
def start_batch_download (files : List TaskSpec) (skip_images : Bool) : BatchSys :=
  { skip_images := skip_images, total := files.length, completed := 0,
    pending := files, events := [] }

/-- One scheduling step: the pending task at position `i` finishes (its
worker runs, with the lock-protected block reading the current counter). -/
def bstep (s : BatchSys) (i : Nat) : Option BatchSys :=
  match s.pending.get? i with
  | none => none
  | some t =>
    let r := _download_worker s.skip_images t.url t.dest t.outcome s.total s.completed
    some { s with completed := s.completed + r.completedDelta,
                  pending := s.pending.eraseIdx i,
                  events := s.events ++ r.events }

/-- A finite schedule of finishing tasks, executed in order. -/
def brun (s : BatchSys) : List Nat → Option BatchSys
  | [] => some s
  | i :: rest => (bstep s i).bind (fun s' => brun s' rest)

/-- The overall-progress percentages among a signal log, in emission
order. -/
def overallVals (evts : List Event) : List Rat :=
  evts.filterMap (fun e => match e with
    | Event.overall v => some v
    | _ => none)

/-- Test for the batch-complete signal. -/
def isAllDone : Event → Bool
  | Event.allDone => true
  | _ => false

/-- Test for the per-file completion signal. -/
def isFileDone : Event → Bool
  | Event.fileDone _ => true
  | _ => false

/-- Test for the per-file progress signal. -/
def isProgress : Event → Bool
  | Event.progress _ _ => true
  | _ => false

/-- Test for the per-file error signal. -/
def isFileError : Event → Bool
  | Event.fileError _ _ => true
  | _ => false

/-- Test for the overall-progress signal. -/
def isOverall : Event → Bool
  | Event.overall _ => true
  | _ => false

/-- Whether a task's worker run increments `_completed_files`: the image-skip
path and the fully successful path do; every failing path does not. -/
def incrTask (skip_images : Bool) (t : TaskSpec) : Bool :=
  (skip_images && _is_image t.url) ||
    (match t.outcome with
     | Outcome.ok _ => true
     | _ => false)

/-- A task that takes the normal, fully successful download path: its
outcome is `ok` and the image-skip branch does not capture it. -/
def normalOk (skip_images : Bool) (t : TaskSpec) : Prop :=
  (∃ r, t.outcome = Outcome.ok r) ∧ (skip_images && _is_image t.url) = false

/-! ## The queue-processor transition system

`DownloadManager._process_queue` (downloader.py lines 39-67) together with
the workers' `finally` removal (line 116) and `__init__` (lines 16-29).
The single processor thread is a two-phase loop: under the lock it compares
`len(_active_downloads)` with the cap and idles when not strictly below;
otherwise it dequeues a task (outside the lock) and then, under the lock
again, registers the task's URL in `_active_downloads` and starts the
thread.  Workers remove their URL at any time.  `_active_downloads` is a
dict keyed by URL, so registering an already-present URL replaces the handle
without growing the map. -/

/-- The processor thread's control point: between iterations, or holding a
dequeued task it has not yet registered. -/
inductive PPC where
  | idle
  | claimed (url : String)
  deriving DecidableEq, Repr

/-- The shared state relevant to the concurrency cap: the cap
(`_max_concurrent_downloads`), the keys of `_active_downloads`, the download
queue, and the processor's control point. -/
structure PoolSys where
  cap : Nat
  active : List String
  dlQueue : List String
  ppc : PPC
  deriving DecidableEq, Repr

/-- The state right after `__init__(max_concurrent_downloads)` with some
URLs queued: no active downloads, the processor between iterations. -/
def poolInit (cap : Nat) (queued : List String) : PoolSys :=
  { cap := cap, active := [], dlQueue := queued, ppc := PPC.idle }

/-- The default of the `max_concurrent_downloads` parameter
(downloader.py line 16). -/
def max_concurrent_downloads_default : Nat := 3

/-- One interleaving step of the pool:
`dq` — the processor, between iterations, observes under the lock that the
active count is strictly below the cap (line 45: otherwise it waits and
retries) and dequeues the next task (line 52);
`reg` — the processor registers the claimed task's URL into
`_active_downloads` under the lock and starts the worker (lines 61-63);
`done u` — some worker's `finally` removes `u` (line 116, `pop` with a
default, so absent keys are a no-op). -/
inductive PAct where
  | dq
  | reg
  | done (url : String)
  deriving DecidableEq, Repr

/-- The pool's small-step function (`none` = the action is not enabled). -/
def pstep (s : PoolSys) : PAct → Option PoolSys
  | PAct.dq =>
    match s.ppc, s.dlQueue with
    | PPC.idle, u :: rest =>
      if s.active.length < s.cap then
        some { s with ppc := PPC.claimed u, dlQueue := rest }
      else none
    | _, _ => none
  | PAct.reg =>
    match s.ppc with
    | PPC.claimed u =>
      some { s with active := if u ∈ s.active then s.active else u :: s.active,
                    ppc := PPC.idle }
    | PPC.idle => none
  | PAct.done u => some { s with active := s.active.erase u }

/-- A finite interleaving, executed in order. -/
def prun (s : PoolSys) : List PAct → Option PoolSys
  | [] => some s
  | a :: rest => (pstep s a).bind (fun s' => prun s' rest)

/-! ## Derived predicates and invariants used by the theorems -/

/-- Whether an outcome is a completed, successful transfer. -/
def Outcome.isOk : Outcome → Bool
  | Outcome.ok _ => true
  | _ => false

/-- Whether an outcome is one of the failure modes (network error,
filesystem error, or non-2xx status surfaced by `raise_for_status`). -/
def Outcome.isFail : Outcome → Bool
  | Outcome.ok _ => false
  | _ => true

/-- The file name a failing worker reports: `os.path.basename(dest_path)`
on the `dest_path` variable at the moment of the raise — the original
destination for an `os.makedirs` failure, the `.gls`-rewritten destination
for every later failure. -/
def failName (dest : String) : Outcome → String
  | Outcome.mkdirErr _ => pybasename dest
  | _ => pybasename (glsRewrite dest)

/-- The error detail a failing worker reports (`str(e)`). -/
def failMsg : Outcome → String
  | Outcome.mkdirErr m => m
  | Outcome.netErr m => m
  | Outcome.writeErr _ _ m => m
  | Outcome.ok _ => ""

/-- The entry a listing row yields, if any (`none` both for a row whose
link cell the parser cannot read and for a silently skipped row). -/
def rowItemOpt (u : String) (r : ListRow) : Option FileItem :=
  match parseRow u r with
  | Except.ok o => o
  | Except.error _ => none

/-- Whether a row's link cell holds an anchor. -/
def hasAnchor (r : ListRow) : Bool :=
  match r.linkCell with
  | some (some _) => true
  | _ => false

/-- Whether the parser can read the row without raising: the link cell is
present (else `.find('a')` on `None` raises `AttributeError`) and, when it
holds an anchor, that anchor carries an `href` attribute (else
`link_tag['href']` raises `KeyError`). -/
def rowReadable (r : ListRow) : Bool :=
  match r.linkCell with
  | none => false
  | some none => true
  | some (some a) => a.href.isSome

/-- The invariant of the queue-processor system: the active map never
exceeds the cap, and while the processor holds a dequeued task it has
observed strict room for it. -/
def PoolInv (s : PoolSys) : Prop :=
  s.active.length ≤ s.cap ∧
  ∀ u, s.ppc = PPC.claimed u → s.active.length < s.cap

/-- The progress invariant of the batch system: the emitted overall
percentages are non-decreasing and all bounded by the percentage of the
current counter. -/
def BatchInv (s : BatchSys) : Prop :=
  List.Chain' (· ≤ ·) (overallVals s.events) ∧
  ∀ v ∈ overallVals s.events, v ≤ ratPct s.completed s.total

/-- The at-most-once invariant of the batch-complete signal: the counter
plus the increments still pending never exceeds the total, and the signal
has fired at most once — never while the counter is still short of the
total. -/
def OnceInv (s : BatchSys) : Prop :=
  s.completed + s.pending.countP (incrTask s.skip_images) ≤ s.total ∧
  s.events.countP isAllDone ≤ 1 ∧
  (s.completed < s.total → s.events.countP isAllDone = 0)

/-- The exactly-once invariant for a batch whose every task takes the
normal successful path: the counter and the pending count partition the
total, and the signal has fired exactly when the counter has reached a
positive total. -/
def ExactInv (s : BatchSys) : Prop :=
  s.completed + s.pending.length = s.total ∧
  (∀ t ∈ s.pending, normalOk s.skip_images t) ∧
  s.events.countP isAllDone = (if s.completed = s.total ∧ 0 < s.total then 1 else 0)

/-- A throwaway batch state, used only as the default of `Option.getD` in
closed statements. -/
def dummyBatch : BatchSys := start_batch_download [] false

/-- A throwaway pool state, used only as the default of `Option.getD` in
closed statements. -/
def dummyPool : PoolSys := poolInit 0 []

/-- A concrete two-file batch in which both transfers succeed, used in
closed statements. -/
def filesW2 : List TaskSpec :=
  [⟨"http://h/a.txt", "downloads/a.txt", Outcome.ok ⟨0, []⟩⟩,
   ⟨"http://h/b.txt", "downloads/b.txt", Outcome.ok ⟨4, [[1, 2], [3, 4]]⟩⟩]

/-- A concrete two-level remote tree used in closed statements: the root
listing holds the subdirectories `docs/` (whose fetch fails) and `ok/`
(which lists `b.txt`) and the file `a.txt`. -/
def serverW : String → Option ListingHTML := fun u =>
  if u = "http://h/list/" then
    some ⟨some (some
      [⟨some (some ⟨some "docs/", none⟩), []⟩,
       ⟨some (some ⟨some "ok/", none⟩), []⟩,
       ⟨some (some ⟨some "a.txt", none⟩), []⟩])⟩
  else if u = "http://h/list/ok/" then
    some ⟨some (some [⟨some (some ⟨some "b.txt", none⟩), []⟩])⟩
  else none

/-! ## Helper lemmas -/

theorem mem_of_getLastEq {α : Type} {l : List α} {x : α} (h : l.getLast? = some x) :
    x ∈ l := by
  have hm : x ∈ l.getLast? := by simp [h]
  obtain ⟨hne, hx⟩ := List.mem_getLast?_eq_getLast hm
  subst hx
  exact List.getLast_mem hne

theorem foldl_skip_empty (chunks : List (List Nat)) (acc : List Nat) :
    chunks.foldl (fun acc c => if c.isEmpty then acc else acc ++ c) acc =
      acc ++ chunks.flatten := by
  induction chunks generalizing acc with
  | nil => simp
  | cons c cs ih =>
    by_cases h : c.isEmpty
    · have hc : c = [] := List.isEmpty_iff.mp h
      subst hc
      rw [List.foldl_cons, if_pos h, ih]
      simp
    · rw [List.foldl_cons, if_neg h, ih]
      simp

theorem writtenBytes_eq_flatten (chunks : List (List Nat)) :
    writtenBytes chunks = chunks.flatten := by
  simpa [writtenBytes] using foldl_skip_empty chunks []

theorem chunkEvents_mem {name : String} {ts : Nat} {chunks : List (List Nat)}
    {dl : Nat} {e : Event} (h : e ∈ chunkEvents name ts dl chunks) :
    ∃ n p, e = Event.progress n p := by
  induction chunks generalizing dl with
  | nil => simp [chunkEvents] at h
  | cons c cs ih =>
    by_cases hc : c.isEmpty
    · rw [chunkEvents, if_pos hc] at h
      exact ih h
    · rw [chunkEvents, if_neg hc, List.mem_cons] at h
      rcases h with h | h
      · exact ⟨_, _, h⟩
      · exact ih h

theorem countP_chunkEvents (p : Event → Bool)
    (hp : ∀ n q, p (Event.progress n q) = false)
    (name : String) (ts dl : Nat) (chunks : List (List Nat)) :
    (chunkEvents name ts dl chunks).countP p = 0 := by
  refine List.countP_eq_zero.mpr (fun e he => ?_)
  obtain ⟨n, q, rfl⟩ := chunkEvents_mem he
  simp [hp]

/-! ## Claim theorems: the worker on one task -/

/-- Claim C3: `_get_relative_path` returns the URL path portion after the
first occurrence of the base-directory name among the URL's slash-separated
parts when that segment occurs (preserving subdirectory structure), and
exactly the URL's last segment (flattening to the basename) otherwise. -/
theorem relative_path_spec (url base_dir : String) :
    (pybasename base_dir ∈ pysplit '/' url →
      _get_relative_path url base_dir =
        joinChar '/' ((pysplit '/' url).drop
          (listIndex (pybasename base_dir) (pysplit '/' url) + 1))) ∧
    (pybasename base_dir ∉ pysplit '/' url →
      _get_relative_path url base_dir = (pysplit '/' url).getLastD "") := by
  constructor
  · intro h
    simp [_get_relative_path, h]
  · intro h
    simp [_get_relative_path, h]

/-- Witness for C3 at concrete inputs: a URL containing the root segment
`docs` keeps the subdirectory structure after it, and a URL not containing
it flattens to the last segment. -/
theorem relative_path_spec_witness :
    _get_relative_path "http://h/docs/a/b.txt" "downloads/docs" =
      joinChar '/' ((pysplit '/' "http://h/docs/a/b.txt").drop
        (listIndex (pybasename "downloads/docs") (pysplit '/' "http://h/docs/a/b.txt") + 1)) ∧
    _get_relative_path "http://h/other/c.txt" "downloads/docs" =
      (pysplit '/' "http://h/other/c.txt").getLastD "" :=
  ⟨(relative_path_spec "http://h/docs/a/b.txt" "downloads/docs").1 (by decide),
   (relative_path_spec "http://h/other/c.txt" "downloads/docs").2 (by decide)⟩

/-- Counterexample to claim C8 as stated: the destination
`downloads/report.GLS` does not end in `.gls`, yet the worker rewrites it
(the source lowercases before comparing) and writes the body to
`downloads/report.csv`. -/
theorem gls_rewrite_cex :
    pyEndsWith "downloads/report.GLS" ".gls" = false ∧
    (_download_worker false "http://h/report.GLS" "downloads/report.GLS"
        (Outcome.ok ⟨4, [[1, 2]]⟩) 1 0).writes = [("downloads/report.csv", [1, 2])] :=
  ⟨by decide, by decide⟩

/-- Claim C8 as amended: the `.gls` match is case-insensitive.  A
destination whose lowercased form ends in `.gls` is rewritten to the same
path with `.csv` substituted for the final four characters; a destination
whose lowercased form does not is left unchanged; and on a successful
transfer the bytes written to the (possibly rewritten) destination are
exactly the response body. -/
theorem gls_rewrite_spec (dest url : String) (resp : Response) (total pre : Nat) :
    (pyEndsWith (pylower dest) ".gls" = true →
      glsRewrite dest = pyDropRight dest 4 ++ ".csv") ∧
    (pyEndsWith (pylower dest) ".gls" = false → glsRewrite dest = dest) ∧
    (_download_worker false url dest (Outcome.ok resp) total pre).writes =
      [(glsRewrite dest, resp.chunks.flatten)] := by
  refine ⟨fun h => by simp [glsRewrite, h], fun h => by simp [glsRewrite, h], ?_⟩
  by_cases hcl : resp.content_length = 0
  · simp [_download_worker, hcl, Response.content]
  · simp [_download_worker, hcl, writtenBytes_eq_flatten]

/-- Witness for C8 (amended) at concrete inputs: `report.gls` is rewritten,
`b.txt` is not, and a two-chunk body is written whole. -/
theorem gls_rewrite_spec_witness :
    glsRewrite "downloads/report.gls" = pyDropRight "downloads/report.gls" 4 ++ ".csv" ∧
    glsRewrite "downloads/b.txt" = "downloads/b.txt" ∧
    (_download_worker false "http://h/b.txt" "downloads/b.txt"
        (Outcome.ok ⟨4, [[1, 2], [3, 4]]⟩) 1 0).writes =
      [(glsRewrite "downloads/b.txt", ([[1, 2], [3, 4]] : List (List Nat)).flatten)] :=
  ⟨(gls_rewrite_spec "downloads/report.gls" "u" ⟨0, []⟩ 1 0).1 (by decide),
   ((gls_rewrite_spec "downloads/b.txt" "u" ⟨0, []⟩ 1 0).2).1 (by decide),
   ((gls_rewrite_spec "downloads/b.txt" "http://h/b.txt" ⟨4, [[1, 2], [3, 4]]⟩ 1 0).2).2⟩

/-- Claim C6: with `skipImages` set, a task whose URL matches an image
extension writes nothing to disk, still increments the completed counter by
one, and emits the overall-progress event `(completedFiles/totalFiles)*100`
computed from the incremented counter; a non-image task of the same batch
with a successful outcome is written out normally and also counts. -/
theorem skip_images_spec (skip : Bool) (url dest : String) (outcome : Outcome)
    (resp : Response) (total pre : Nat) :
    (skip = true → _is_image url = true →
      (_download_worker skip url dest outcome total pre).writes = [] ∧
      (_download_worker skip url dest outcome total pre).completedDelta = 1 ∧
      (_download_worker skip url dest outcome total pre).events =
        [Event.overall (ratPct (pre + 1) total)]) ∧
    (_is_image url = false →
      (_download_worker skip url dest (Outcome.ok resp) total pre).writes =
        [(glsRewrite dest, resp.chunks.flatten)] ∧
      (_download_worker skip url dest (Outcome.ok resp) total pre).completedDelta = 1) := by
  constructor
  · rintro rfl him
    simp [_download_worker, him]
  · intro him
    have hs : (skip && _is_image url) = false := by simp [him]
    by_cases hcl : resp.content_length = 0
    · simp [_download_worker, hs, hcl, Response.content]
    · simp [_download_worker, hs, hcl, writtenBytes_eq_flatten]

/-- Witness for C6 at concrete inputs: with `skipImages` on, `a.png` is
skipped but counted, and `b.txt` is written in full. -/
theorem skip_images_spec_witness :
    ((_download_worker true "http://h/a.png" "downloads/a.png"
        (Outcome.ok ⟨0, []⟩) 2 0).writes = [] ∧
      (_download_worker true "http://h/a.png" "downloads/a.png"
        (Outcome.ok ⟨0, []⟩) 2 0).completedDelta = 1 ∧
      (_download_worker true "http://h/a.png" "downloads/a.png"
        (Outcome.ok ⟨0, []⟩) 2 0).events = [Event.overall (ratPct 1 2)]) ∧
    ((_download_worker true "http://h/b.txt" "downloads/b.txt"
        (Outcome.ok ⟨4, [[1, 2], [3, 4]]⟩) 2 1).writes =
        [(glsRewrite "downloads/b.txt", ([[1, 2], [3, 4]] : List (List Nat)).flatten)] ∧
      (_download_worker true "http://h/b.txt" "downloads/b.txt"
        (Outcome.ok ⟨4, [[1, 2], [3, 4]]⟩) 2 1).completedDelta = 1) :=
  ⟨(skip_images_spec true "http://h/a.png" "downloads/a.png" (Outcome.ok ⟨0, []⟩)
      ⟨0, []⟩ 2 0).1 rfl (by decide),
   (skip_images_spec true "http://h/b.txt" "downloads/b.txt" (Outcome.netErr "x")
      ⟨4, [[1, 2], [3, 4]]⟩ 2 1).2 (by decide)⟩

/-- Claim C7: on any failing outcome of a task the image-skip branch does
not capture, the worker emits exactly one per-file error event, carrying the
basename of the destination path as it stands at the raise (the
`.gls`-rewritten destination for failures past the rewrite) and the error
detail; it does not increment the completed counter, emits neither a
completion nor an overall-progress nor a batch-complete event, and still
removes the task's URL from the active map. -/
theorem per_file_error_spec (skip : Bool) (url dest : String) (o : Outcome)
    (total pre : Nat) (hs : (skip && _is_image url) = false)
    (hf : o.isFail = true) :
    (_download_worker skip url dest o total pre).completedDelta = 0 ∧
    (_download_worker skip url dest o total pre).removedFromActive = true ∧
    (_download_worker skip url dest o total pre).events.countP isFileError = 1 ∧
    Event.fileError (failName dest o) (failMsg o) ∈
      (_download_worker skip url dest o total pre).events ∧
    (_download_worker skip url dest o total pre).events.countP isFileDone = 0 ∧
    (_download_worker skip url dest o total pre).events.countP isOverall = 0 ∧
    (_download_worker skip url dest o total pre).events.countP isAllDone = 0 := by
  cases o with
  | ok resp => simp [Outcome.isFail] at hf
  | mkdirErr m =>
    simp [_download_worker, hs, failName, failMsg, isFileError, isFileDone,
      isOverall, isAllDone]
  | netErr m =>
    simp [_download_worker, hs, failName, failMsg, isFileError, isFileDone,
      isOverall, isAllDone]
  | writeErr resp k m =>
    by_cases hcl : resp.content_length = 0
    · simp [_download_worker, hs, hcl, failName, failMsg, isFileError,
        isFileDone, isOverall, isAllDone]
    · simp [_download_worker, hs, hcl, failName, failMsg, isFileError,
        isFileDone, isOverall, isAllDone, List.countP_append,
        countP_chunkEvents (fun e => isFileError e) (by intro n q; rfl),
        countP_chunkEvents (fun e => isFileDone e) (by intro n q; rfl),
        countP_chunkEvents (fun e => isOverall e) (by intro n q; rfl),
        countP_chunkEvents (fun e => isAllDone e) (by intro n q; rfl)]

/-- Witness for C7 at a concrete input: a network failure on `report.gls`
reports `report.csv` (the rewritten destination) with the error text, and
changes nothing else. -/
theorem per_file_error_spec_witness :
    (_download_worker false "http://h/report.gls" "downloads/report.gls"
        (Outcome.netErr "boom") 2 0).completedDelta = 0 ∧
    (_download_worker false "http://h/report.gls" "downloads/report.gls"
        (Outcome.netErr "boom") 2 0).removedFromActive = true ∧
    (_download_worker false "http://h/report.gls" "downloads/report.gls"
        (Outcome.netErr "boom") 2 0).events.countP isFileError = 1 ∧
    Event.fileError (failName "downloads/report.gls" (Outcome.netErr "boom"))
        (failMsg (Outcome.netErr "boom")) ∈
      (_download_worker false "http://h/report.gls" "downloads/report.gls"
        (Outcome.netErr "boom") 2 0).events ∧
    (_download_worker false "http://h/report.gls" "downloads/report.gls"
        (Outcome.netErr "boom") 2 0).events.countP isFileDone = 0 ∧
    (_download_worker false "http://h/report.gls" "downloads/report.gls"
        (Outcome.netErr "boom") 2 0).events.countP isOverall = 0 ∧
    (_download_worker false "http://h/report.gls" "downloads/report.gls"
        (Outcome.netErr "boom") 2 0).events.countP isAllDone = 0 :=
  per_file_error_spec false "http://h/report.gls" "downloads/report.gls"
    (Outcome.netErr "boom") 2 0 (by decide) (by decide)

/-- Claim C10: a task captured by the image-skip branch emits exactly the
single overall-progress event — no per-file completion and no per-file
progress — whereas a task that downloads successfully emits exactly one
per-file completion event. -/
theorem skip_only_overall_spec (skip : Bool) (url dest : String) (o : Outcome)
    (resp : Response) (total pre : Nat) :
    (skip = true → _is_image url = true →
      (_download_worker skip url dest o total pre).events =
        [Event.overall (ratPct (pre + 1) total)] ∧
      (_download_worker skip url dest o total pre).events.countP isFileDone = 0 ∧
      (_download_worker skip url dest o total pre).events.countP isProgress = 0) ∧
    ((skip && _is_image url) = false →
      (_download_worker skip url dest (Outcome.ok resp) total pre).events.countP
        isFileDone = 1) := by
  constructor
  · rintro rfl him
    simp [_download_worker, him, isFileDone, isProgress]
  · intro hs
    by_cases hcl : resp.content_length = 0
    · by_cases ht : pre + 1 = total
      · simp [_download_worker, hs, hcl, ht, isFileDone]
      · simp [_download_worker, hs, hcl, ht, isFileDone]
    · by_cases ht : pre + 1 = total
      · simp [_download_worker, hs, hcl, ht, isFileDone, List.countP_append,
          countP_chunkEvents (fun e => isFileDone e) (by intro n q; rfl)]
      · simp [_download_worker, hs, hcl, ht, isFileDone, List.countP_append,
          countP_chunkEvents (fun e => isFileDone e) (by intro n q; rfl)]

/-- Witness for C10 at concrete inputs: the skipped `a.png` produces only
the overall update; the downloaded `b.txt` produces one completion event. -/
theorem skip_only_overall_spec_witness :
    ((_download_worker true "http://h/a.png" "downloads/a.png"
        (Outcome.ok ⟨0, []⟩) 3 1).events = [Event.overall (ratPct 2 3)] ∧
      (_download_worker true "http://h/a.png" "downloads/a.png"
        (Outcome.ok ⟨0, []⟩) 3 1).events.countP isFileDone = 0 ∧
      (_download_worker true "http://h/a.png" "downloads/a.png"
        (Outcome.ok ⟨0, []⟩) 3 1).events.countP isProgress = 0) ∧
    (_download_worker false "http://h/b.txt" "downloads/b.txt"
        (Outcome.ok ⟨4, [[1, 2], [3, 4]]⟩) 3 1).events.countP isFileDone = 1 :=
  ⟨(skip_only_overall_spec true "http://h/a.png" "downloads/a.png"
      (Outcome.ok ⟨0, []⟩) ⟨0, []⟩ 3 1).1 rfl (by decide),
   (skip_only_overall_spec false "http://h/b.txt" "downloads/b.txt"
      (Outcome.netErr "x") ⟨4, [[1, 2], [3, 4]]⟩ 3 1).2 (by decide)⟩

/-! ## Claim theorems: the listing parser and the resolver -/

theorem parseRow_of_readable {u : String} {r : ListRow}
    (h : rowReadable r = true) :
    parseRow u r = Except.ok (rowItemOpt u r) := by
  cases hlc : r.linkCell with
  | none => simp [rowReadable, hlc] at h
  | some oa =>
    cases oa with
    | none => simp [parseRow, rowItemOpt, hlc]
    | some a =>
      have hh : a.href.isSome = true := by simpa [rowReadable, hlc] using h
      cases hhref : a.href with
      | none => simp [hhref] at hh
      | some link =>
        by_cases hl : link = "../"
        · simp [parseRow, rowItemOpt, hlc, hhref, hl]
        · simp [parseRow, rowItemOpt, hlc, hhref, hl]

theorem rowItemOpt_isSome {u : String} {r : ListRow}
    (h : rowReadable r = true) :
    (rowItemOpt u r).isSome = hasAnchor r := by
  cases hlc : r.linkCell with
  | none => simp [rowReadable, hlc] at h
  | some oa =>
    cases oa with
    | none => simp [rowItemOpt, parseRow, hasAnchor, hlc]
    | some a =>
      have hh : a.href.isSome = true := by simpa [rowReadable, hlc] using h
      cases hhref : a.href with
      | none => simp [hhref] at hh
      | some link =>
        by_cases hl : link = "../" <;>
          simp [rowItemOpt, parseRow, hasAnchor, hlc, hhref, hl]

theorem parse_rows_ok (u : String) (rows : List ListRow) (acc : List FileItem)
    (hrows : ∀ r ∈ rows, rowReadable r = true) :
    (rows.foldlM (fun acc row => do
        match ← parseRow u row with
        | none => pure acc
        | some item => pure (acc ++ [item])) acc : Except String (List FileItem)) =
      Except.ok (acc ++ rows.filterMap (rowItemOpt u)) := by
  induction rows generalizing acc with
  | nil => simp [pure, Except.pure]
  | cons r rs ih =>
    have hr : parseRow u r = Except.ok (rowItemOpt u r) :=
      parseRow_of_readable (hrows r (List.mem_cons_self r rs))
    have hrs : ∀ x ∈ rs, rowReadable x = true :=
      fun x hx => hrows x (List.mem_cons_of_mem _ hx)
    have hbind : ∀ {α : Type} (x : α) (g : α → Except String (List FileItem)),
        (Except.ok x >>= g) = g x := fun _ _ => rfl
    have hpure : ∀ (l : List FileItem),
        (pure l : Except String (List FileItem)) = Except.ok l := fun _ => rfl
    rw [List.foldlM_cons, hr, hbind]
    cases ho : rowItemOpt u r with
    | none =>
      simpa [hbind, hpure, List.filterMap_cons, ho] using ih acc hrs
    | some it =>
      simpa [hbind, hpure, List.filterMap_cons, ho, List.append_assoc] using
        ih (acc ++ [it]) hrs

theorem length_filterMap_eq_countP {α β : Type} (f : α → Option β) (l : List α) :
    (l.filterMap f).length = l.countP (fun a => (f a).isSome) := by
  induction l with
  | nil => simp
  | cons a as ih =>
    cases hf : f a <;> simp [List.filterMap_cons, hf, List.countP_cons, ih]

/-- Counterexample to claim C4 as stated: a listing whose table (and body)
is present, holding one row with no link cell at all and one perfectly
valid row, still makes the parse raise (`find('td', class_='link')` returns
`None` and the chained `.find('a')` raises `AttributeError`) — so parsing
can fail even when the listing table is present, and the unlinkable row is
not skipped. -/
theorem parse_raises_cex :
    (parseListing
        ⟨some (some [⟨none, []⟩, ⟨some (some ⟨some "b.txt", none⟩), []⟩])⟩
        "http://h/").isOk = false ∧
    (⟨some (some [⟨none, []⟩, ⟨some (some ⟨some "b.txt", none⟩), []⟩])⟩ :
        ListingHTML).tableBody ≠ none :=
  ⟨by decide, by decide⟩

/-- Claim C4 as amended: rows whose link cell is present but holds no
anchor are skipped silently, and the parse returns exactly one entry per
anchored row, in document order; the parse raises when the table is absent
— but also when the table body is absent, when a row lacks the link cell
element entirely (`AttributeError`), and when an anchored row's anchor has
no `href` attribute (`KeyError`), so "fails only when the table is absent"
holds only for documents whose every row is readable (link cell present,
and any anchor carrying an `href`). -/
theorem parse_skip_spec (doc : ListingHTML) (u : String) (rows : List ListRow)
    (htb : doc.tableBody = some (some rows))
    (hrows : ∀ r ∈ rows, rowReadable r = true) :
    parseListing doc u = Except.ok (rows.filterMap (rowItemOpt u)) ∧
    (rows.filterMap (rowItemOpt u)).length = rows.countP hasAnchor ∧
    (∀ d : ListingHTML, d.tableBody = none →
      ∃ msg, parseListing d u = Except.error msg) ∧
    ∀ (a : RowAnchor) (r : ListRow), a.href = none →
      r.linkCell = some (some a) →
      ∃ msg, parseRow u r = Except.error msg := by
  refine ⟨?_, ?_, ?_, ?_⟩
  · simp only [parseListing, htb]
    simpa using parse_rows_ok u rows [] hrows
  · rw [length_filterMap_eq_countP]
    apply List.countP_congr
    intro r hr
    simp [rowItemOpt_isSome (hrows r hr)]
  · intro d hd
    refine ⟨"AttributeError: NoneType has no attribute find", ?_⟩
    simp only [parseListing, hd]
  · intro a r ha hlc
    refine ⟨"KeyError: href", ?_⟩
    simp only [parseRow, hlc, ha]

/-- Witness for C4 (amended) at a concrete listing: one anchor-less link
cell (skipped) and two anchored rows (a directory and a file) parse to
exactly the two anchored entries, in order. -/
theorem parse_skip_spec_witness :
    parseListing
        ⟨some (some [⟨some none, []⟩,
          ⟨some (some ⟨some "docs/", none⟩), ["docs/", "-", "2024-01-02 03:04"]⟩,
          ⟨some (some ⟨some "b.txt", some "b.txt"⟩), ["b.txt", "10 B", "2024-01-02 03:04"]⟩])⟩
        "http://h/list/" =
      Except.ok
        (([⟨some none, []⟩,
          ⟨some (some ⟨some "docs/", none⟩), ["docs/", "-", "2024-01-02 03:04"]⟩,
          ⟨some (some ⟨some "b.txt", some "b.txt"⟩), ["b.txt", "10 B", "2024-01-02 03:04"]⟩] :
            List ListRow).filterMap (rowItemOpt "http://h/list/")) ∧
    (([⟨some none, []⟩,
      ⟨some (some ⟨some "docs/", none⟩), ["docs/", "-", "2024-01-02 03:04"]⟩,
      ⟨some (some ⟨some "b.txt", some "b.txt"⟩), ["b.txt", "10 B", "2024-01-02 03:04"]⟩] :
        List ListRow).filterMap (rowItemOpt "http://h/list/")).length =
      ([⟨some none, []⟩,
        ⟨some (some ⟨some "docs/", none⟩), ["docs/", "-", "2024-01-02 03:04"]⟩,
        ⟨some (some ⟨some "b.txt", some "b.txt"⟩), ["b.txt", "10 B", "2024-01-02 03:04"]⟩] :
          List ListRow).countP hasAnchor :=
  ⟨(parse_skip_spec _ "http://h/list/" _ rfl (by decide)).1,
   (parse_skip_spec _ "http://h/list/" _ rfl (by decide)).2.1⟩

theorem foldl_childContrib (server : String → Option ListingHTML) (fuel : Nat)
    (items : List FileItem) (acc : List FileItem) :
    items.foldl (fun acc item =>
      if item.name = ".." then acc
      else if item.is_directory then
        acc ++ get_all_downloadable_files server fuel item.url
      else acc ++ [item]) acc =
      acc ++ items.flatMap (childContrib server fuel) := by
  induction items generalizing acc with
  | nil => simp
  | cons it its ih =>
    rw [List.foldl_cons, ih]
    by_cases h1 : it.name = ".."
    · simp [childContrib, h1]
    · by_cases h2 : it.is_directory <;>
        simp [childContrib, h1, h2, List.append_assoc]

theorem get_all_dir (server : String → Option ListingHTML) (fuel : Nat)
    (url : String) (items : List FileItem) (hurl : pyEndsWith url "/" = true)
    (hok : list_directory server url = Except.ok items) :
    get_all_downloadable_files server (fuel + 1) url =
      items.flatMap (childContrib server fuel) := by
  have hfold := foldl_childContrib server fuel items []
  simp only [get_all_downloadable_files, hurl, hok]
  simpa using hfold

theorem childContrib_of_error (server : String → Option ListingHTML) (fuel : Nat)
    (d : FileItem) (hdd : d.is_directory = true) (hdn : d.name ≠ "..")
    (hdu : pyEndsWith d.url "/" = true)
    (he : ∃ e, list_directory server d.url = Except.error e) :
    childContrib server fuel d = [] := by
  obtain ⟨e, he⟩ := he
  cases fuel with
  | zero => simp [childContrib, hdn, hdd, get_all_downloadable_files]
  | succ n => simp [childContrib, hdn, hdd, get_all_downloadable_files, hdu, he]

/-- Claim C5: during recursive resolution of a directory whose listing
parses to `items`, the result is the independent concatenation of each
child's contribution; a child subtree whose fetch or parse fails
contributes nothing, and every file resolved under any other child of the
same directory is still in the result. -/
theorem subtree_isolation_spec (server : String → Option ListingHTML)
    (fuel : Nat) (url : String) (items : List FileItem) (d f : FileItem)
    (hurl : pyEndsWith url "/" = true)
    (hok : list_directory server url = Except.ok items)
    (hdd : d.is_directory = true) (hdn : d.name ≠ "..")
    (hdu : pyEndsWith d.url "/" = true)
    (he : ∃ e, list_directory server d.url = Except.error e)
    (hf : f ∈ items) :
    get_all_downloadable_files server (fuel + 1) url =
      items.flatMap (childContrib server fuel) ∧
    childContrib server fuel d = [] ∧
    ∀ x ∈ childContrib server fuel f,
      x ∈ get_all_downloadable_files server (fuel + 1) url := by
  have h1 := get_all_dir server fuel url items hurl hok
  refine ⟨h1, childContrib_of_error server fuel d hdd hdn hdu he, fun x hx => ?_⟩
  rw [h1]
  exact List.mem_flatMap.mpr ⟨f, hf, hx⟩

/-- Witness for C5 at the concrete tree `serverW`: the failing `docs/`
subtree contributes nothing, while `b.txt` from the sibling `ok/` subtree
is still resolved. -/
theorem subtree_isolation_spec_witness :
    get_all_downloadable_files serverW 2 "http://h/list/" =
      ([⟨"docs/", true, "", "", "http://h/list/docs/"⟩,
        ⟨"ok/", true, "", "", "http://h/list/ok/"⟩,
        ⟨"a.txt", false, "", "", "http://h/list/a.txt"⟩] :
          List FileItem).flatMap (childContrib serverW 1) ∧
    childContrib serverW 1 ⟨"docs/", true, "", "", "http://h/list/docs/"⟩ = [] ∧
    (⟨"b.txt", false, "", "", "http://h/list/ok/b.txt"⟩ : FileItem) ∈
      get_all_downloadable_files serverW 2 "http://h/list/" :=
  have h := subtree_isolation_spec serverW 1 "http://h/list/"
    [⟨"docs/", true, "", "", "http://h/list/docs/"⟩,
     ⟨"ok/", true, "", "", "http://h/list/ok/"⟩,
     ⟨"a.txt", false, "", "", "http://h/list/a.txt"⟩]
    ⟨"docs/", true, "", "", "http://h/list/docs/"⟩
    ⟨"ok/", true, "", "", "http://h/list/ok/"⟩
    (by decide) rfl (by decide) (by decide) (by decide)
    ⟨"HTTPError", rfl⟩ (by decide)
  ⟨h.1, h.2.1, h.2.2 ⟨"b.txt", false, "", "", "http://h/list/ok/b.txt"⟩ (by decide)⟩

/-! ## Claim theorems: the queue processor and the concurrency cap -/

theorem pstep_preserves (s s' : PoolSys) (a : PAct) (h : pstep s a = some s')
    (hinv : PoolInv s) : PoolInv s' ∧ s'.cap = s.cap := by
  obtain ⟨cap, active, queue, ppc⟩ := s
  cases a with
  | dq =>
    cases ppc with
    | claimed u => simp [pstep] at h
    | idle =>
      cases queue with
      | nil => simp [pstep] at h
      | cons u rest =>
        simp only [pstep] at h
        by_cases hlt : active.length < cap
        · rw [if_pos hlt] at h
          obtain rfl := Option.some.inj h
          exact ⟨⟨hinv.1, fun v _ => hlt⟩, rfl⟩
        · rw [if_neg hlt] at h
          exact absurd h (by simp)
  | reg =>
    cases ppc with
    | idle => simp [pstep] at h
    | claimed u =>
      simp only [pstep] at h
      obtain rfl := Option.some.inj h
      have hlt : active.length < cap := hinv.2 u rfl
      refine ⟨⟨?_, ?_⟩, rfl⟩
      · by_cases hm : u ∈ active
        · simpa [hm] using hinv.1
        · simp only [if_neg hm, List.length_cons]
          omega
      · intro v hv
        exact PPC.noConfusion hv
  | done u =>
    obtain rfl := Option.some.inj h
    refine ⟨⟨?_, ?_⟩, rfl⟩
    · exact le_trans (List.erase_sublist u active).length_le hinv.1
    · intro v hv
      exact lt_of_le_of_lt (List.erase_sublist u active).length_le (hinv.2 v hv)

theorem prun_preserves (acts : List PAct) (s s' : PoolSys)
    (h : prun s acts = some s') (hinv : PoolInv s) :
    PoolInv s' ∧ s'.cap = s.cap := by
  induction acts generalizing s with
  | nil =>
    obtain rfl := Option.some.inj h
    exact ⟨hinv, rfl⟩
  | cons a rest ih =>
    unfold prun at h
    cases hs : pstep s a with
    | none =>
      rw [hs] at h
      exact Option.noConfusion h
    | some s₁ =>
      rw [hs] at h
      obtain ⟨hinv₁, hcap₁⟩ := pstep_preserves s s₁ a hs hinv
      obtain ⟨hinv', hcap'⟩ := ih s₁ h hinv₁
      exact ⟨hinv', hcap'.trans hcap₁⟩

/-- Claim C2: starting from a fresh manager with any queue, along every
interleaving of processor and worker steps the active-downloads map holds
at most `cap` entries — the processor dequeues and registers only after
observing strictly fewer than `cap` active transfers, and only workers
shrink the map in between — and the cap's default is 3. -/
theorem active_le_cap_spec (cap : Nat) (queued : List String) (acts : List PAct)
    (s' : PoolSys) (h : prun (poolInit cap queued) acts = some s') :
    s'.active.length ≤ cap ∧ max_concurrent_downloads_default = 3 := by
  have hinit : PoolInv (poolInit cap queued) :=
    ⟨by simp [poolInit], fun u hu => by simp [poolInit] at hu⟩
  obtain ⟨hinv, hcap⟩ := prun_preserves acts _ s' h hinit
  have hc : s'.cap = cap := by simpa [poolInit] using hcap
  exact ⟨hc ▸ hinv.1, rfl⟩

/-- Witness for C2: with the default cap 3 and four queued URLs, after
three dequeue-register rounds the active map holds 3 ≤ 3 entries. -/
theorem active_le_cap_spec_witness :
    ((prun (poolInit 3 ["a", "b", "c", "d"])
        [PAct.dq, PAct.reg, PAct.dq, PAct.reg, PAct.dq, PAct.reg]).getD
      dummyPool).active.length ≤ 3 ∧
    max_concurrent_downloads_default = 3 :=
  active_le_cap_spec 3 ["a", "b", "c", "d"]
    [PAct.dq, PAct.reg, PAct.dq, PAct.reg, PAct.dq, PAct.reg] _ rfl

/-! ## Claim theorems: the batch counters and the batch-complete signal -/

theorem overallVals_append (a b : List Event) :
    overallVals (a ++ b) = overallVals a ++ overallVals b := by
  simp [overallVals]

theorem overallVals_chunkEvents (name : String) (ts dl : Nat)
    (chunks : List (List Nat)) :
    overallVals (chunkEvents name ts dl chunks) = [] := by
  refine List.filterMap_eq_nil_iff.mpr (fun e he => ?_)
  obtain ⟨n, q, rfl⟩ := chunkEvents_mem he
  rfl

theorem worker_delta (skip : Bool) (t : TaskSpec) (total pre : Nat) :
    (_download_worker skip t.url t.dest t.outcome total pre).completedDelta =
      if incrTask skip t then 1 else 0 := by
  by_cases hs : (skip && _is_image t.url) = true
  · simp [_download_worker, hs, incrTask]
  · have hs' : (skip && _is_image t.url) = false := by simpa using hs
    cases ho : t.outcome <;>
      simp [_download_worker, hs', incrTask, ho, apply_ite]

theorem worker_allDone (skip : Bool) (t : TaskSpec) (total pre : Nat) :
    (_download_worker skip t.url t.dest t.outcome total pre).events.countP
        isAllDone =
      if (skip && _is_image t.url) = false ∧ t.outcome.isOk = true ∧
          pre + 1 = total then 1 else 0 := by
  by_cases hs : (skip && _is_image t.url) = true
  · simp [_download_worker, hs, isAllDone]
  · have hs' : (skip && _is_image t.url) = false := by simpa using hs
    cases ho : t.outcome with
    | ok resp =>
      by_cases ht : pre + 1 = total
      · by_cases hcl : resp.content_length = 0 <;>
          simp [_download_worker, hs', ho, ht, hcl, isAllDone, Outcome.isOk,
            List.countP_append,
            countP_chunkEvents (fun e => isAllDone e) (fun n q => rfl)]
      · by_cases hcl : resp.content_length = 0 <;>
          simp [_download_worker, hs', ho, ht, hcl, isAllDone, Outcome.isOk,
            List.countP_append,
            countP_chunkEvents (fun e => isAllDone e) (fun n q => rfl)]
    | mkdirErr m => simp [_download_worker, hs', ho, isAllDone, Outcome.isOk]
    | netErr m => simp [_download_worker, hs', ho, isAllDone, Outcome.isOk]
    | writeErr resp k m =>
      by_cases hcl : resp.content_length = 0 <;>
        simp [_download_worker, hs', ho, hcl, isAllDone, Outcome.isOk,
          List.countP_append,
          countP_chunkEvents (fun e => isAllDone e) (fun n q => rfl)]

theorem worker_overall (skip : Bool) (t : TaskSpec) (total pre : Nat) :
    overallVals (_download_worker skip t.url t.dest t.outcome total pre).events =
      if incrTask skip t then [ratPct (pre + 1) total] else [] := by
  by_cases hs : (skip && _is_image t.url) = true
  · simp [_download_worker, hs, incrTask, overallVals]
  · have hs' : (skip && _is_image t.url) = false := by simpa using hs
    cases ho : t.outcome with
    | ok resp =>
      by_cases ht : pre + 1 = total <;>
        by_cases hcl : resp.content_length = 0 <;>
          simp [_download_worker, hs', ho, ht, hcl, incrTask, overallVals,
            List.filterMap_append] <;>
          (intro a ha; obtain ⟨n, q, rfl⟩ := chunkEvents_mem ha; rfl)
    | mkdirErr m => simp [_download_worker, hs', ho, incrTask, overallVals]
    | netErr m => simp [_download_worker, hs', ho, incrTask, overallVals]
    | writeErr resp k m =>
      by_cases hcl : resp.content_length = 0 <;>
        simp [_download_worker, hs', ho, hcl, incrTask, overallVals,
          List.filterMap_append] <;>
        (intro a ha; obtain ⟨n, q, rfl⟩ := chunkEvents_mem ha; rfl)

theorem ratPct_mono {a b : Nat} (t : Nat) (h : a ≤ b) :
    ratPct a t ≤ ratPct b t := by
  unfold ratPct
  rcases Nat.eq_zero_or_pos t with ht | ht
  · subst ht
    simp
  · have hab : (a : Rat) ≤ (b : Rat) := by exact_mod_cast h
    have htr : (0 : Rat) < (t : Rat) := by exact_mod_cast ht
    gcongr

theorem chain_append_le (l : List Rat) (v : Rat)
    (hc : List.Chain' (· ≤ ·) l) (hb : ∀ x ∈ l, x ≤ v) :
    List.Chain' (· ≤ ·) (l ++ [v]) := by
  refine hc.append (List.chain'_singleton v) ?_
  intro x hx y hy
  simp only [List.head?_cons, Option.mem_def, Option.some.injEq] at hy
  subst hy
  exact hb x (mem_of_getLastEq (Option.mem_def.mp hx))

theorem bstep_batchInv (s s' : BatchSys) (i : Nat) (h : bstep s i = some s')
    (hinv : BatchInv s) :
    BatchInv s' ∧ s.completed ≤ s'.completed ∧ s'.total = s.total ∧
      s'.skip_images = s.skip_images := by
  unfold bstep at h
  cases hg : s.pending.get? i with
  | none =>
    rw [hg] at h
    exact Option.noConfusion h
  | some t =>
    rw [hg] at h
    obtain rfl := Option.some.inj h
    have hov := worker_overall s.skip_images t s.total s.completed
    have hd := worker_delta s.skip_images t s.total s.completed
    by_cases hit : incrTask s.skip_images t = true
    · rw [if_pos hit] at hov hd
      refine ⟨⟨?_, ?_⟩, ?_, rfl, rfl⟩
      · show List.Chain' (· ≤ ·) (overallVals (s.events ++ _))
        rw [overallVals_append, hov]
        refine chain_append_le _ _ hinv.1 (fun x hx => ?_)
        exact le_trans (hinv.2 x hx) (ratPct_mono s.total (Nat.le_succ _))
      · intro v hv
        rw [overallVals_append, hov] at hv
        rcases List.mem_append.mp hv with hv | hv
        · refine le_trans (hinv.2 v hv) ?_
          show ratPct s.completed s.total ≤ ratPct (s.completed + _) s.total
          rw [hd]
          exact ratPct_mono s.total (Nat.le_succ _)
        · simp only [List.mem_singleton] at hv
          subst hv
          show ratPct (s.completed + 1) s.total ≤ ratPct (s.completed + _) s.total
          rw [hd]
      · exact Nat.le_add_right _ _
    · have hit' : incrTask s.skip_images t = false := by simpa using hit
      rw [hit', if_neg (by simp)] at hov hd
      refine ⟨⟨?_, ?_⟩, ?_, rfl, rfl⟩
      · show List.Chain' (· ≤ ·) (overallVals (s.events ++ _))
        rw [overallVals_append, hov, List.append_nil]
        exact hinv.1
      · intro v hv
        rw [overallVals_append, hov, List.append_nil] at hv
        refine le_trans (hinv.2 v hv) ?_
        show ratPct s.completed s.total ≤ ratPct (s.completed + _) s.total
        rw [hd]
        exact ratPct_mono s.total (Nat.le_add_right _ _)
      · exact Nat.le_add_right _ _

theorem brun_batchInv (acts : List Nat) (s s' : BatchSys)
    (h : brun s acts = some s') (hinv : BatchInv s) :
    BatchInv s' ∧ s.completed ≤ s'.completed ∧ s'.total = s.total ∧
      s'.skip_images = s.skip_images := by
  induction acts generalizing s with
  | nil =>
    obtain rfl := Option.some.inj h
    exact ⟨hinv, le_refl _, rfl, rfl⟩
  | cons a rest ih =>
    unfold brun at h
    cases hs : bstep s a with
    | none =>
      rw [hs] at h
      exact Option.noConfusion h
    | some s₁ =>
      rw [hs] at h
      obtain ⟨hinv₁, hm₁, ht₁, hk₁⟩ := bstep_batchInv s s₁ a hs hinv
      obtain ⟨hinv', hm', ht', hk'⟩ := ih s₁ h hinv₁
      exact ⟨hinv', le_trans hm₁ hm', ht'.trans ht₁, hk'.trans hk₁⟩

/-- Claim C9: within one batch the shared completed counter starts at zero
at submission, never decreases across any schedule of worker completions
(every mutation adds its worker's non-negative delta under the lock), and
the overall-progress percentages emitted so far are monotonically
non-decreasing. -/
theorem counter_monotone_spec (files : List TaskSpec) (skip : Bool)
    (acts₁ acts₂ : List Nat) (s₁ s₂ : BatchSys)
    (h1 : brun (start_batch_download files skip) acts₁ = some s₁)
    (h2 : brun s₁ acts₂ = some s₂) :
    (start_batch_download files skip).completed = 0 ∧
    s₁.completed ≤ s₂.completed ∧
    List.Chain' (· ≤ ·) (overallVals s₂.events) := by
  have hinit : BatchInv (start_batch_download files skip) := by
    constructor
    · simp [start_batch_download, overallVals]
    · intro v hv
      simp [start_batch_download, overallVals] at hv
  obtain ⟨hinv₁, _, _, _⟩ := brun_batchInv acts₁ _ s₁ h1 hinit
  obtain ⟨hinv₂, hm, _, _⟩ := brun_batchInv acts₂ s₁ s₂ h2 hinv₁
  exact ⟨rfl, hm, hinv₂.1⟩

/-- Witness for C9: a concrete two-file batch run one completion at a
time. -/
theorem counter_monotone_spec_witness :
    (start_batch_download filesW2 false).completed = 0 ∧
    ((brun (start_batch_download filesW2 false) [0]).getD dummyBatch).completed ≤
      ((brun ((brun (start_batch_download filesW2 false) [0]).getD dummyBatch)
        [0]).getD dummyBatch).completed ∧
    List.Chain' (· ≤ ·) (overallVals
      ((brun ((brun (start_batch_download filesW2 false) [0]).getD dummyBatch)
        [0]).getD dummyBatch).events) :=
  counter_monotone_spec filesW2 false [0] [0]
    ((brun (start_batch_download filesW2 false) [0]).getD dummyBatch)
    ((brun ((brun (start_batch_download filesW2 false) [0]).getD dummyBatch)
      [0]).getD dummyBatch) rfl rfl

theorem countP_eraseIdx_of_get {α : Type} (p : α → Bool) (l : List α) (i : Nat)
    (t : α) (h : l.get? i = some t) :
    l.countP p = (l.eraseIdx i).countP p + (if p t then 1 else 0) := by
  induction l generalizing i with
  | nil => simp at h
  | cons a l ih =>
    cases i with
    | zero =>
      obtain rfl := Option.some.inj h
      rw [List.eraseIdx_cons_zero, List.countP_cons]
    | succ i =>
      have h' : l.get? i = some t := h
      rw [List.eraseIdx_cons_succ, List.countP_cons, List.countP_cons, ih i h']
      omega

theorem incrTask_of_isOk (skip : Bool) (t : TaskSpec)
    (h : t.outcome.isOk = true) : incrTask skip t = true := by
  cases ho : t.outcome <;> rw [ho] at h <;>
    simp [Outcome.isOk] at h <;> simp [incrTask, ho]

theorem bstep_onceInv (s s' : BatchSys) (i : Nat) (h : bstep s i = some s')
    (hinv : OnceInv s) : OnceInv s' := by
  unfold bstep at h
  cases hg : s.pending.get? i with
  | none =>
    rw [hg] at h
    exact Option.noConfusion h
  | some t =>
    rw [hg] at h
    obtain rfl := Option.some.inj h
    obtain ⟨hb, h1, h0⟩ := hinv
    have hd := worker_delta s.skip_images t s.total s.completed
    have ha := worker_allDone s.skip_images t s.total s.completed
    have hcnt := countP_eraseIdx_of_get (incrTask s.skip_images) s.pending i t hg
    refine ⟨?_, ?_, ?_⟩
    · show s.completed + _ + (s.pending.eraseIdx i).countP (incrTask s.skip_images) ≤
        s.total
      rw [hd]
      by_cases hit : incrTask s.skip_images t = true
      · simp only [hit, if_true] at hcnt ⊢
        omega
      · have hif : incrTask s.skip_images t = false := by simpa using hit
        simp only [hif, Bool.false_eq_true, if_false] at hcnt ⊢
        omega
    · show (s.events ++ _).countP isAllDone ≤ 1
      rw [List.countP_append, ha]
      by_cases hc : (s.skip_images && _is_image t.url) = false ∧
          t.outcome.isOk = true ∧ s.completed + 1 = s.total
      · rw [if_pos hc]
        have hincr : incrTask s.skip_images t = true :=
          incrTask_of_isOk s.skip_images t hc.2.1
        have hpos : 0 < s.pending.countP (incrTask s.skip_images) :=
          List.countP_pos_iff.mpr ⟨t, List.get?_mem hg, hincr⟩
        have hclt : s.completed < s.total := by omega
        rw [h0 hclt]
      · rw [if_neg hc]
        omega
    · intro hlt
      have hlt' : s.completed +
          (_download_worker s.skip_images t.url t.dest t.outcome s.total
            s.completed).completedDelta < s.total := hlt
      rw [hd] at hlt'
      show (s.events ++ _).countP isAllDone = 0
      rw [List.countP_append, ha]
      by_cases hc : (s.skip_images && _is_image t.url) = false ∧
          t.outcome.isOk = true ∧ s.completed + 1 = s.total
      · exfalso
        have hincr : incrTask s.skip_images t = true :=
          incrTask_of_isOk s.skip_images t hc.2.1
        rw [if_pos hincr] at hlt'
        omega
      · rw [if_neg hc, Nat.add_zero]
        have hclt : s.completed < s.total := by omega
        exact h0 hclt

theorem brun_onceInv (acts : List Nat) (s s' : BatchSys)
    (h : brun s acts = some s') (hinv : OnceInv s) : OnceInv s' := by
  induction acts generalizing s with
  | nil =>
    obtain rfl := Option.some.inj h
    exact hinv
  | cons a rest ih =>
    unfold brun at h
    cases hs : bstep s a with
    | none =>
      rw [hs] at h
      exact Option.noConfusion h
    | some s₁ =>
      rw [hs] at h
      exact ih s₁ h (bstep_onceInv s s₁ a hs hinv)

theorem bstep_exactInv (s s' : BatchSys) (i : Nat) (h : bstep s i = some s')
    (hinv : ExactInv s) : ExactInv s' := by
  unfold bstep at h
  cases hg : s.pending.get? i with
  | none =>
    rw [hg] at h
    exact Option.noConfusion h
  | some t =>
    rw [hg] at h
    obtain rfl := Option.some.inj h
    obtain ⟨hlen, hall, hcount⟩ := hinv
    have htmem : t ∈ s.pending := List.get?_mem hg
    obtain ⟨⟨r, hr⟩, hskip⟩ := hall t htmem
    have hok : t.outcome.isOk = true := by rw [hr]; rfl
    have hincr : incrTask s.skip_images t = true :=
      incrTask_of_isOk s.skip_images t hok
    have hd := worker_delta s.skip_images t s.total s.completed
    rw [if_pos hincr] at hd
    have ha := worker_allDone s.skip_images t s.total s.completed
    have hilt : i < s.pending.length := (List.get?_eq_some.mp hg).1
    have hlen' := List.length_eraseIdx_add_one hilt
    refine ⟨?_, ?_, ?_⟩
    · show s.completed + _ + (s.pending.eraseIdx i).length = s.total
      rw [hd]
      omega
    · intro x hx
      exact hall x ((List.eraseIdx_sublist s.pending i).mem hx)
    · show (s.events ++ _).countP isAllDone = _
      simp only [List.countP_append, ha, hcount, hd]
      by_cases hcT : s.completed + 1 = s.total
      · have hne1 : ¬(s.completed = s.total ∧ 0 < s.total) := by
          rintro ⟨hc1, hc2⟩
          omega
        rw [if_neg hne1, if_pos ⟨hskip, hok, hcT⟩, if_pos ⟨hcT, by omega⟩]
      · have hclt : s.completed < s.total := by omega
        have hne1 : ¬(s.completed = s.total ∧ 0 < s.total) := by
          rintro ⟨hc1, hc2⟩
          omega
        have hne2 : ¬((s.skip_images && _is_image t.url) = false ∧
            t.outcome.isOk = true ∧ s.completed + 1 = s.total) :=
          fun hcc => hcT hcc.2.2
        have hne3 : ¬(s.completed + 1 = s.total ∧ 0 < s.total) :=
          fun hcc => hcT hcc.1
        rw [if_neg hne1, if_neg hne2, if_neg hne3]

theorem brun_exactInv (acts : List Nat) (s s' : BatchSys)
    (h : brun s acts = some s') (hinv : ExactInv s) : ExactInv s' := by
  induction acts generalizing s with
  | nil =>
    obtain rfl := Option.some.inj h
    exact hinv
  | cons a rest ih =>
    unfold brun at h
    cases hs : bstep s a with
    | none =>
      rw [hs] at h
      exact Option.noConfusion h
    | some s₁ =>
      rw [hs] at h
      exact ih s₁ h (bstep_exactInv s s₁ a hs hinv)

/-- Counterexample to claim C1 as stated: a one-file batch whose only task
is an image skipped under `skipImages` drives the counter to the total —
the final increment is performed by the image-skip path — yet no
batch-complete event is emitted, because the skip path (downloader.py lines
72-77) increments and emits overall progress without the completion check
of the normal path (lines 108-110). -/
theorem all_done_skip_cex :
    ((brun (start_batch_download
        [⟨"http://h/a.png", "downloads/a.png", Outcome.ok ⟨0, []⟩⟩] true)
        [0]).getD dummyBatch).completed =
      ((brun (start_batch_download
        [⟨"http://h/a.png", "downloads/a.png", Outcome.ok ⟨0, []⟩⟩] true)
        [0]).getD dummyBatch).total ∧
    ((brun (start_batch_download
        [⟨"http://h/a.png", "downloads/a.png", Outcome.ok ⟨0, []⟩⟩] true)
        [0]).getD dummyBatch).events.countP isAllDone = 0 :=
  ⟨by decide, by decide⟩

/-- Claim C1 as amended: within one batch the batch-complete event is
emitted at most once, and exactly once when every task completes through
the normal successful download path (so the final increment is performed by
that path, whose lock-protected block alone checks
`completedFiles == totalFiles`); when the image-skip path performs the
final increment no batch-complete event fires. -/
theorem all_done_once_spec (files : List TaskSpec) (skip : Bool)
    (acts : List Nat) (s' : BatchSys)
    (h : brun (start_batch_download files skip) acts = some s') :
    s'.events.countP isAllDone ≤ 1 ∧
    ((∀ t ∈ files, normalOk skip t) → s'.pending = [] → files ≠ [] →
      s'.events.countP isAllDone = 1) := by
  have honce : OnceInv (start_batch_download files skip) := by
    refine ⟨?_, by simp [start_batch_download], fun _ => by simp [start_batch_download]⟩
    simpa [start_batch_download] using files.countP_le_length (incrTask skip)
  constructor
  · exact (brun_onceInv acts _ s' h honce).2.1
  · intro hall hpend hne
    have hexact : ExactInv (start_batch_download files skip) := by
      refine ⟨by simp [start_batch_download], fun t ht => hall t ht, ?_⟩
      show (0 : Nat) = if 0 = files.length ∧ 0 < files.length then 1 else 0
      rw [if_neg (fun hcc => by omega)]
    obtain ⟨hlen, _, hcount⟩ := brun_exactInv acts _ s' h hexact
    have hinitB : BatchInv (start_batch_download files skip) :=
      ⟨by simp [start_batch_download, overallVals],
       fun v hv => by simp [start_batch_download, overallVals] at hv⟩
    obtain ⟨_, _, htot, _⟩ := brun_batchInv acts _ s' h hinitB
    rw [hpend] at hlen
    have hfl : files.length ≠ 0 := fun hc => hne (List.length_eq_zero.mp hc)
    have h0 : 0 < s'.total := by
      have : s'.total = files.length := htot
      omega
    rw [hcount, if_pos ⟨by simpa using hlen, h0⟩]

/-- Witness for C1 (amended): the two-file all-success batch `filesW2`,
run to completion, fires the batch-complete event exactly once. -/
theorem all_done_once_spec_witness :
    ((brun (start_batch_download filesW2 false) [0, 0]).getD
        dummyBatch).events.countP isAllDone = 1 :=
  (all_done_once_spec filesW2 false [0, 0]
      ((brun (start_batch_download filesW2 false) [0, 0]).getD dummyBatch) rfl).2
    (by
      intro t ht
      rcases List.mem_cons.mp ht with rfl | ht
      · exact ⟨⟨⟨0, []⟩, rfl⟩, by decide⟩
      rcases List.mem_cons.mp ht with rfl | ht
      · exact ⟨⟨⟨4, [[1, 2], [3, 4]]⟩, rfl⟩, by decide⟩
      · simp at ht)
    (by decide) (by decide)

end DataKitchen
